import Mathlib

/-!
Verification of the git history ingestion pipeline of the
codebase-time-machine repository.

The TypeScript source is shallowly embedded: strings are `List Char`,
JavaScript numbers that can be `NaN` are `Option Int` (with `none`
modelling `NaN`), fallible functions return `Except`, and the
`while`-loop of the log parser is a fuel-indexed step function so that
its (non-)termination behaviour is itself provable.

Sources embedded below:
  * `src/src/app/api/git/[repositoryId]/log/route.ts` (query gateway,
    `sanitizeRepositoryPath`, `sanitizeGitParameter`, `GET`, `POST`)
  * `src/unnamed/part_009` (ingestion route: `sanitizeRepositoryPath`,
    `sanitizeFilePath`, `checkRepositorySize`, `getDirectorySize`,
    `detectLanguage`, `calculateComplexity`, `parseGitLog`)
-/

deriving instance DecidableEq for Except

/-! ## Character and string primitives (JavaScript semantics) -/

/-- Whitespace characters recognised by JavaScript `String.trim`, the
regex class `\s` and `parseInt` leading-space skipping (ASCII part). -/
def jsIsWs (c : Char) : Bool :=
  c = ' ' || c = '\t' || c = '\n' || c = '\r' || c = '\x0b' || c = '\x0c'

/-- JavaScript `String.prototype.trim` on a character list. -/
def jsTrim (l : List Char) : List Char :=
  ((l.dropWhile jsIsWs).reverse.dropWhile jsIsWs).reverse

/-- JavaScript word character (regex `\w`): letters, digits, underscore. -/
def jsIsWordChar (c : Char) : Bool :=
  (('a' ≤ c && c ≤ 'z') || ('A' ≤ c && c ≤ 'Z') || ('0' ≤ c && c ≤ '9') || c = '_')

/-- Decimal digit test (regex `\d`). -/
def jsIsDigit (c : Char) : Bool := '0' ≤ c && c ≤ '9'

/-- `String.prototype.split` with a single-character separator:
`"".split(s) = [""]`, separators at the ends produce empty segments. -/
def splitOnC (sep : Char) : List Char → List (List Char)
  | [] => [[]]
  | c :: cs =>
    match splitOnC sep cs with
    | [] => [[c]]
    | g :: gs => if c = sep then [] :: g :: gs else (c :: g) :: gs

/-- `String.prototype.split(/\s+/)`: splits on maximal whitespace runs,
keeping the empty segments JavaScript produces at the ends. -/
def splitWs : List Char → List (List Char)
  | [] => [[]]
  | [c] => if jsIsWs c then [[], []] else [[c]]
  | c :: d :: cs =>
    match splitWs (d :: cs) with
    | [] => []
    | g :: gs =>
      if jsIsWs c then (if jsIsWs d then g :: gs else [] :: g :: gs)
      else (c :: g) :: gs

/-- List prefix test, Boolean (JavaScript `String.prototype.startsWith`). -/
def isPrefixC : List Char → List Char → Bool
  | [], _ => true
  | _ :: _, [] => false
  | a :: as, b :: bs => a = b && isPrefixC as bs

/-- Substring containment (JavaScript `String.prototype.includes`). -/
def containsSub (sub : List Char) : List Char → Bool
  | [] => isPrefixC sub []
  | c :: cs => isPrefixC sub (c :: cs) || containsSub sub cs

/-- Value of a list of decimal digits. -/
def digitsToNat (l : List Char) : Nat :=
  l.foldl (fun n c => 10 * n + (c.toNat - 48)) 0

/-- JavaScript `parseInt(s)` (radix auto-detection restricted to decimal,
the only radix the pipeline's inputs use): skip leading whitespace, read an
optional sign and the longest digit prefix; `none` models `NaN`. -/
def parseIntJS (l : List Char) : Option Int :=
  let l := l.dropWhile jsIsWs
  let core : List Char → Option Int := fun m =>
    let d := m.takeWhile jsIsDigit
    if d.isEmpty then none else some (Int.ofNat (digitsToNat d))
  match l with
  | '-' :: rest => (core rest).map (fun v => -v)
  | '+' :: rest => core rest
  | _ => core l

/-- `parseInt(x) || 0` where `x` may be `undefined` (an out-of-range
destructuring slot): `undefined`, `NaN` and `0` all give `0`. -/
def jsParseIntOr0 (o : Option (List Char)) : Int :=
  match o with
  | none => 0
  | some s => (parseIntJS s).getD 0

/-- `Math.max` over possibly-`NaN` numbers: any `NaN` operand gives `NaN`. -/
def jsMax (a b : Option Int) : Option Int :=
  match a, b with
  | some x, some y => some (max x y)
  | _, _ => none

/-! ## Path & Parameter Sanitizer (route.ts 10-51, part_009 10-51) -/

/-- Absolute path test (POSIX). -/
def isAbsPath (p : List Char) : Bool :=
  match p with
  | '/' :: _ => true
  | _ => false

/-- Segment-wise normalization used by Node `path.resolve`: drop empty and
`.` segments, let `..` pop the previous segment (or vanish at the root). -/
def normSegs (segs : List (List Char)) : List (List Char) :=
  segs.foldl
    (fun acc seg =>
      if seg = [] || seg = ['.'] then acc
      else if seg = ['.', '.'] then acc.dropLast
      else acc ++ [seg]) []

/-- Node `path.resolve(path.normalize(p))` with working directory `cwd`
(assumed absolute): relative inputs are joined onto `cwd`, then the whole
path is normalized to an absolute path without `.`/`..` segments. -/
def pathResolve (cwd p : List Char) : List Char :=
  let full := if isAbsPath p then p else cwd ++ '/' :: p
  let segs := normSegs (splitOnC '/' full)
  if segs = [] then ['/'] else segs.foldl (fun acc s => acc ++ '/' :: s) []

/-- The fixed allow-list `ALLOWED_BASE_DIRS` (route.ts 11-16): system temp,
`/var/tmp`, the caller's home directory and the process working directory,
passed explicitly per the design notes so theorems can instantiate them. -/
def allowedBaseDirs (home cwd : List Char) : List (List Char) :=
  ["/tmp".data, "/var/tmp".data, home, cwd]

/-- `sanitizeRepositoryPath` (route.ts 19-39, identical in part_009):
resolve and normalize, require a `startsWith` match against a resolved
allowed base, then reject any result containing `..` or `~`. -/
def sanitizeRepositoryPath (bases : List (List Char)) (cwd repoPath : List Char) :
    Except (List Char) (List Char) :=
  let normalizedPath := pathResolve cwd repoPath
  let isAllowed := bases.any (fun baseDir => isPrefixC (pathResolve cwd baseDir) normalizedPath)
  if isAllowed = true then
    if (containsSub "..".data normalizedPath || containsSub "~".data normalizedPath) = true then
      .error "Invalid characters in repository path".data
    else
      .ok normalizedPath
  else
    .error "Repository path is not in an allowed directory".data

/-- Spec-side notion of “descendant of a base directory”: the base itself
or anything below it as a path component, not a mere string prefix. -/
def isPathDescendant (base p : List Char) : Bool :=
  p = base || isPrefixC (base ++ ['/']) p

/-- Shell metacharacters stripped by `sanitizeGitParameter`: in the
route.ts regex literal the class is `[;&|`$(){}\\[\]]`, whose `\]` is an
escaped bracket, so it is a genuine twelve-character class. -/
def isForbiddenParamChar (c : Char) : Bool :=
  c = ';' || c = '&' || c = '|' || c = '\x60' || c = '$' || c = '(' || c = ')' ||
  c = '\x7b' || c = '\x7d' || c = '[' || c = ']' || c = '\\'

/-- `sanitizeGitParameter` (route.ts 42-51): strip the metacharacters and
trim; fail closed if that changed the string, else return it. -/
def sanitizeGitParameter (param : List Char) : Except (List Char) (List Char) :=
  let sanitized := jsTrim (param.filter (fun c => !isForbiddenParamChar c))
  if sanitized = param then .ok sanitized
  else .error "Invalid characters in parameter".data

/-- The character class actually in effect in `sanitizeFilePath`'s regex
literal `[;&|`$(){}\\[\\]]` (part_009 44): there `\\` is an escaped
backslash, so the *unescaped* `]` after it closes the class early.  The
class holds `; & | `(backtick) $ ( ) { } \ [` — and the final `]` of the
source pattern is a literal that must follow the class character. -/
def isFilePathMetaChar (c : Char) : Bool :=
  c = ';' || c = '&' || c = '|' || c = '\x60' || c = '$' || c = '(' || c = ')' ||
  c = '\x7b' || c = '\x7d' || c = '\\' || c = '['

/-- `filePath.replace(/[;&|`$(){}\\[\\]]/g, '')` with the regex's real
meaning: a global left-to-right removal of every two-character sequence
`metacharacter + ]`, continuing after each removed match. -/
def stripMetaBracket : List Char → List Char
  | [] => []
  | [c] => [c]
  | c :: d :: rest =>
    if isFilePathMetaChar c && d = ']' then stripMetaBracket rest
    else c :: stripMetaBracket (d :: rest)

/-- `sanitizeFilePath` (part_009 42-51): unlike `sanitizeGitParameter`,
its regex only strips a metacharacter when it is immediately followed by
`]` (the class is closed by the unescaped `]`); it then trims, and fails
closed if either step changed the string.  A path like `bad;path.ts`
passes through unchanged, while `bad[].ts` throws. -/
def sanitizeFilePath (filePath : List Char) : Except (List Char) (List Char) :=
  let sanitized := jsTrim (stripMetaBracket filePath)
  if sanitized = filePath then .ok sanitized
  else .error "Invalid characters in file path".data

/-! ## Complexity Scorer (part_009 156-188) -/

/-- Count of regex word-boundary matches `\bkw\b` of a literal keyword:
positions where `kw` occurs with no word character on either side.  For a
literal all-word-character keyword these positions cannot overlap, so this
equals the JavaScript global-match count.  `prev` is the character just
before the current position (`none` at the start of the string). -/
def countWordAux (kw : List Char) (prev : Option Char) : List Char → Nat
  | [] => 0
  | c :: cs =>
    let before : Bool :=
      match prev with
      | none => true
      | some p => !jsIsWordChar p
    let here : Bool :=
      before && isPrefixC kw (c :: cs) &&
        (match (c :: cs).drop kw.length with
         | [] => true
         | d :: _ => !jsIsWordChar d)
    (if here then 1 else 0) + countWordAux kw (some c) cs

/-- `content.match(/\bkw\b/g)` match count. -/
def countWordMatches (kw : List Char) (content : List Char) : Nat :=
  countWordAux kw none content

/-- `(content.match(/c/g) || []).length` for a single literal character. -/
def countChar (c : Char) (l : List Char) : Nat :=
  (l.filter (fun a => a = c)).length

/-- The eleven control-flow keyword patterns of `calculateComplexity`. -/
def controlKeywords : List (List Char) :=
  ["if".data, "else".data, "while".data, "for".data, "switch".data, "case".data,
   "try".data, "catch".data, "function".data, "class".data, "return".data]

/-- `calculateComplexity` (part_009 156-188): base 1, plus one per
keyword word-boundary match, plus twice the non-negative brace imbalance
(`Math.max(open - close, 0)` is `Nat` subtraction here), plus the
`async`/`await` matches for the ECMAScript languages, capped at 100.
The single regex `/\basync\b|\bawait\b/g` counts exactly the two
disjoint literals' matches. -/
def calculateComplexity (content : List Char) (language : Option (List Char)) : Nat :=
  let complexity := 1
  let complexity := controlKeywords.foldl (fun acc kw => acc + countWordMatches kw content) complexity
  let maxNesting := countChar '\x7b' content - countChar '\x7d' content
  let complexity := complexity + maxNesting * 2
  let complexity :=
    if language = some "typescript".data ∨ language = some "javascript".data then
      complexity + (countWordMatches "async".data content + countWordMatches "await".data content)
    else complexity
  min complexity 100

/-! ## Repository Size Guard (part_009 53-89, 196-216) -/

/-- A filesystem node: regular file with its stat size, directory with
named entries, or an entry whose `readdir` fails (permissions). -/
inductive FsNode where
  | file (size : Nat)
  | dir (entries : List (List Char × FsNode))
  | unreadable

mutual
/-- `getDirectorySize` (part_009 68-89): recursively sum file sizes under
a directory; a failing `readdir` (non-directory or unreadable target) is
caught and contributes 0. -/
def getDirectorySize : FsNode → Nat
  | .dir entries => entriesSize entries
  | _ => 0

/-- Size contributed by a directory's entry list. -/
def entriesSize : List (List Char × FsNode) → Nat
  | [] => 0
  | (_, n) :: rest =>
    (match n with
     | .dir es => entriesSize es
     | .file s => s
     | .unreadable => 0) + entriesSize rest
end

/-- Entry lookup inside a directory listing. -/
def lookupEntry (entries : List (List Char × FsNode)) (name : List Char) : Option FsNode :=
  match entries with
  | [] => none
  | (k, n) :: rest => if k = name then some n else lookupEntry rest name

/-- `checkRepositorySize` (part_009 54-66): size of the `.git` metadata
directory plus the `1 KB ≈ 1 commit` estimate; every failure mode
(missing or unreadable `.git`, non-directory repository root) is caught
and yields `(0, 0)` rather than an error. -/
def checkRepositorySize (repoRoot : FsNode) : Nat × Nat :=
  let gitSize :=
    match repoRoot with
    | .dir entries =>
      match lookupEntry entries ".git".data with
      | some g => getDirectorySize g
      | none => 0
    | _ => 0
  (gitSize, gitSize / 1024)

/-- `MAX_REPO_SIZE` (part_009 199): 50 MiB. -/
def MAX_REPO_SIZE : Nat := 50 * 1024 * 1024

/-- `MAX_COMMITS` (part_009 200). -/
def MAX_COMMITS : Nat := 1000

/-- The one `git log` invocation `parseGitLog` makes, abstracted to the
data interpolated into the command line. -/
structure GitLogInvocation where
  maxCount : Nat
deriving DecidableEq

/-- The size-guard stage of `parseGitLog` (part_009 196-216): given the
measured `sizeBytes`/`estimatedCommits`, either throw the
repository-too-large error — in which case no `GitLogInvocation` value
exists and the log subprocess is never reached — or produce the
invocation with commit limit `min(estimatedCommits, MAX_COMMITS)`. -/
def parseGitLogPreflight (sizeBytes estimatedCommits : Nat) :
    Except (List Char) GitLogInvocation :=
  if MAX_REPO_SIZE < sizeBytes then
    .error "Repository too large".data
  else
    .ok ⟨min estimatedCommits MAX_COMMITS⟩

/-! ## Ad-hoc Query Gateway (route.ts 57-308) -/

/-- `maxCount` as the `GET` handler reads it:
`parseInt(searchParams.get('max-count') || '100')`; `none` is `NaN`. -/
def getMaxCount (param : Option (List Char)) : Option Int :=
  parseIntJS (param.getD "100".data)

/-- The `--max-count` constraint the `GET` handler attaches to the
constructed command (route.ts 116-119): present with value `v` only when
`0 < v ≤ 1000`; `none` means the flag is omitted and the command runs
with no commit bound at all. -/
def buildMaxCountFlag (maxCount : Option Int) : Option Int :=
  match maxCount with
  | some v => if 0 < v ∧ v ≤ 1000 then some v else none
  | none => none

/-- The raw-command whitelist `allowedCommands` (route.ts 258-268). -/
def allowedCommands : List (List Char) :=
  ["git log".data, "git show".data, "git diff".data, "git blame".data,
   "git ls-files".data, "git rev-list".data, "git branch".data, "git tag".data,
   "git status --porcelain".data]

/-- Outcome of the `POST` raw-command gateway after path validation:
either the command is run, or the caller gets a 403 carrying the
whitelist. -/
inductive PostGateResponse where
  | rejected (allowed : List (List Char))
  | executed (command : List Char)
deriving DecidableEq

/-- The whitelist gate of the `POST` handler (route.ts 270-276): accept
iff the submitted command starts with a whitelisted read-only
subcommand; on rejection return the whitelist. -/
def postCommandGate (command : List Char) : PostGateResponse :=
  if allowedCommands.any (fun allowed => isPrefixC allowed command) = true then
    .executed command
  else
    .rejected allowedCommands

/-! ## History Stream Parser (part_009 91-154, 218-297)

The `while` loop of `parseGitLog` walks the output lines with an index
`i` incremented at the bottom of the body; the two `continue` statements
inside the body (the dead malformed-header guard and the
sanitization-failure `catch`) jump back to the top *without* advancing
`i`.  The loop is embedded as a step function returning the new state and
whether the index advanced, iterated under fuel: a `none` result for
every fuel value is exactly a non-terminating run. -/

/-- `CommitData` (part_009 91-101).  `date` is
`parseInt(dateStr) * 1000` and may be `NaN` (`none`); `tags` is always
created empty by the parser. -/
structure CommitData where
  sha : List Char
  message : List Char
  author : List Char
  authorEmail : List Char
  date : Option Int
  filesChanged : List (List Char)
  linesAdded : Int
  linesDeleted : Int
  tags : List (List Char)
deriving DecidableEq

/-- `FileData` (part_009 103-112). -/
structure FileData where
  path : List Char
  extension : List Char
  firstSeen : Option Int
  lastModified : Option Int
  totalChanges : Nat
  currentSize : Nat
  isDeleted : Bool
  language : Option (List Char)
deriving DecidableEq

/-- Node `path.extname`: the suffix of the basename from its last dot,
empty for dotless names and for a leading dot (hidden files). -/
def lastDotIndexAux : List Char → Nat → Option Nat → Option Nat
  | [], _, acc => acc
  | c :: cs, i, acc => lastDotIndexAux cs (i + 1) (if c = '.' then some i else acc)

/-- Node `path.extname` on a POSIX path. -/
def extname (p : List Char) : List Char :=
  let base := (splitOnC '/' p).getLastD []
  match lastDotIndexAux base 0 none with
  | none => []
  | some 0 => []
  | some i => base.drop i

/-- The extension-to-language lookup table of `detectLanguage`
(part_009 114-154). -/
def languageMap : List (List Char × List Char) :=
  [(".js".data, "javascript".data), (".jsx".data, "javascript".data),
   (".ts".data, "typescript".data), (".tsx".data, "typescript".data),
   (".py".data, "python".data), (".java".data, "java".data),
   (".cpp".data, "cpp".data), (".c".data, "c".data),
   (".cs".data, "csharp".data), (".php".data, "php".data),
   (".rb".data, "ruby".data), (".go".data, "go".data),
   (".rs".data, "rust".data), (".swift".data, "swift".data),
   (".kt".data, "kotlin".data), (".scala".data, "scala".data),
   (".sh".data, "shell".data), (".sql".data, "sql".data),
   (".html".data, "html".data), (".css".data, "css".data),
   (".scss".data, "scss".data), (".sass".data, "sass".data),
   (".less".data, "less".data), (".json".data, "json".data),
   (".xml".data, "xml".data), (".yaml".data, "yaml".data),
   (".yml".data, "yaml".data), (".md".data, "markdown".data),
   (".dockerfile".data, "docker".data), (".r".data, "r".data),
   (".m".data, "matlab".data), (".pl".data, "perl".data),
   (".lua".data, "lua".data), (".vim".data, "vim".data)]

/-- Association-list lookup for the language table. -/
def lookupLang : List (List Char × List Char) → List Char → Option (List Char)
  | [], _ => none
  | (k, v) :: rest, key => if k = key then some v else lookupLang rest key

/-- `detectLanguage` (part_009 114-154): lowercased `path.extname`
looked up in the static table. -/
def detectLanguage (filePath : List Char) : Option (List Char) :=
  lookupLang languageMap ((extname filePath).map Char.toLower)

/-- Console-warning text of the dead malformed-header branch
(part_009 236). -/
def malformedCommitWarn : List Char := "Malformed commit line".data

/-- Console-warning text of the sanitization-failure `catch`
(part_009 286). -/
def skipFileWarn : List Char := "Skipping file with invalid path".data

/-- Mutable state of the parsing loop: the flushed commits, the file
aggregate map (insertion-ordered association list), the open commit
accumulator and the `console.warn` trace. -/
structure ParserState where
  commits : List CommitData
  fileMap : List (List Char × FileData)
  current : Option CommitData
  warnings : List (List Char)
deriving DecidableEq

/-- Everything the caller of `parseGitLog` gets back from the parse
phase (commits, file map) plus the warning trace. -/
structure ParseResult where
  commits : List CommitData
  files : List (List Char × FileData)
  warnings : List (List Char)
deriving DecidableEq

/-- Lookup in the file map (`fileMap.has` / `fileMap.get`). -/
def lookupFM : List (List Char × FileData) → List Char → Option FileData
  | [], _ => none
  | (k, v) :: rest, key => if k = key then some v else lookupFM rest key

/-- In-place update of the file map (`fileMap.set` on an existing key). -/
def setFM : List (List Char × FileData) → List Char → FileData → List (List Char × FileData)
  | [], _, _ => []
  | (k, v) :: rest, key, fd => if k = key then (k, fd) :: rest else (k, v) :: setFM rest key fd

/-- The file-tracking block (part_009 266-284): create the `FileData` on
first sight, otherwise bump `lastModified` (with `Math.max`) and
`totalChanges`. -/
def updateFileMap (m : List (List Char × FileData)) (p : List Char) (date : Option Int) :
    List (List Char × FileData) :=
  match lookupFM m p with
  | none =>
    m ++ [(p, { path := p, extension := extname p, firstSeen := date, lastModified := date,
                totalChanges := 1, currentSize := 0, isDeleted := false,
                language := detectLanguage p })]
  | some fd =>
    setFM m p { fd with lastModified := jsMax fd.lastModified date,
                        totalChanges := fd.totalChanges + 1 }

/-- The regex test `line.match(/^\d+\s+\d+\s+/)`: digits, whitespace,
digits, whitespace from the start of the line (maximal munch agrees with
the regex because `\d` and `\s` are disjoint). -/
def numstatMatch (l : List Char) : Bool :=
  let r1 := l.dropWhile jsIsDigit
  let r2 := r1.dropWhile jsIsWs
  let r3 := r2.dropWhile jsIsDigit
  !(l.takeWhile jsIsDigit).isEmpty && !(r1.takeWhile jsIsWs).isEmpty &&
    !(r2.takeWhile jsIsDigit).isEmpty && !(r3.takeWhile jsIsWs).isEmpty

/-- The file-statistics branch (part_009 251-289): split on tabs, take
`parts[0]` as the stats string and `parts[2]` as the path (the source's
`const [stats, , filePath] = parts`), sanitize the path — a failure
warns and `continue`s *without* advancing the line index — then
accumulate into the open commit and the file map. -/
def fileStep (line : List Char) (cur : CommitData) (st : ParserState) :
    ParserState × Bool :=
  match splitOnC '\t' line with
  | stats :: _ :: filePath :: _ =>
    (match sanitizeFilePath filePath with
     | .error _ => ({ st with warnings := st.warnings ++ [skipFileWarn] }, false)
     | .ok sanitizedFilePath =>
       let nums := splitWs stats
       let added := jsParseIntOr0 (nums.get? 0)
       let deleted := jsParseIntOr0 (nums.get? 1)
       let cur' := { cur with
         filesChanged := cur.filesChanged ++ [sanitizedFilePath],
         linesAdded := cur.linesAdded + added,
         linesDeleted := cur.linesDeleted + deleted }
       ({ st with current := some cur',
                  fileMap := updateFileMap st.fileMap sanitizedFilePath cur'.date }, true))
  | _ => (st, true)

/-- One iteration of the `while` loop body (part_009 225-292) on the
line at the current index: returns the new state and whether `i`
advances (`false` exactly on the two `continue` paths). -/
def parseStep (raw : List Char) (st : ParserState) : ParserState × Bool :=
  let line := jsTrim raw
  let parts := splitOnC '|' line
  if line.contains '|' = true ∧ parts.length = 5 then
    -- new commit line: flush the open accumulator first
    let pushed := { st with commits := st.commits ++ st.current.toList }
    -- the source re-checks the field count here; the guard above already
    -- ensures five fields, so this `continue` branch is unreachable
    if parts.length ≠ 5 then
      ({ pushed with warnings := pushed.warnings ++ [malformedCommitWarn] }, false)
    else
      match parts with
      | [sha, message, author, authorEmail, dateStr] =>
        let newCommit : CommitData :=
          { sha := sha, message := jsTrim message, author := jsTrim author,
            authorEmail := jsTrim authorEmail,
            date := (parseIntJS dateStr).map (fun t => t * 1000),
            filesChanged := [], linesAdded := 0, linesDeleted := 0, tags := [] }
        ({ pushed with current := some newCommit }, true)
      | _ => (pushed, true)
  else
    match st.current with
    | some cur =>
      if line ≠ [] ∧ numstatMatch line = true then fileStep line cur st else (st, true)
    | none => (st, true)

/-- End-of-stream flush (part_009 294-297). -/
def parseFinish (st : ParserState) : ParseResult :=
  { commits := st.commits ++ st.current.toList,
    files := st.fileMap, warnings := st.warnings }

/-- The whole loop, fuel-indexed: `none` means the fuel ran out, so a
`none` result for *every* fuel is a non-terminating run of the source
loop. -/
def parseLoop : Nat → List (List Char) → ParserState → Option ParseResult
  | 0, _, _ => none
  | _ + 1, [], st => some (parseFinish st)
  | fuel + 1, line :: rest, st =>
    match parseStep line st with
    | (st', true) => parseLoop fuel rest st'
    | (st', false) => parseLoop fuel (line :: rest) st'

/-- Initial loop state (part_009 218-222). -/
def parseInit : ParserState :=
  { commits := [], fileMap := [], current := none, warnings := [] }

/-- The source loop, run on a line list, produces `r`: some fuel
suffices.  This is the observable behaviour of the parse phase of
`parseGitLog` on the given `git log` output lines. -/
def Parses (lines : List (List Char)) (r : ParseResult) : Prop :=
  ∃ fuel, parseLoop fuel lines parseInit = some r

/-- The commit-header test of the loop (part_009 228): the trimmed line
contains a pipe and splits into exactly five fields. -/
def IsHeaderLine (raw : List Char) : Prop :=
  (jsTrim raw).contains '|' = true ∧ (splitOnC '|' (jsTrim raw)).length = 5

instance (raw : List Char) : Decidable (IsHeaderLine raw) := by
  unfold IsHeaderLine; infer_instance

/-- 1 for an open commit accumulator, 0 otherwise. -/
def openBit (st : ParserState) : Nat :=
  match st.current with
  | some _ => 1
  | none => 0

/-- 1 for a commit-header line, 0 otherwise. -/
def headerBit (raw : List Char) : Nat :=
  if IsHeaderLine raw then 1 else 0

/-- Number of well-formed (five-field) commit-header lines in a stream. -/
def countHeaders (lines : List (List Char)) : Nat :=
  (lines.map headerBit).sum

theorem sanity_splitOnC : splitOnC '|' "a|b|c".data = ["a".data, "b".data, "c".data] := by decide

theorem sanity_parseInt : parseIntJS "  -42x".data = some (-42) ∧ parseIntJS "x".data = none := by decide

theorem sanity_resolve : pathResolve "/cwd".data "a/../b".data = "/cwd/b".data := by decide

/-! ## Generic helper lemmas -/

/-- `jsTrim` never lengthens a string. -/
lemma jsTrim_length_le (l : List Char) : (jsTrim l).length ≤ l.length := by
  unfold jsTrim
  calc ((l.dropWhile jsIsWs).reverse.dropWhile jsIsWs).reverse.length
      = ((l.dropWhile jsIsWs).reverse.dropWhile jsIsWs).length := by
        rw [List.length_reverse]
    _ ≤ (l.dropWhile jsIsWs).reverse.length := (List.dropWhile_sublist _).length_le
    _ = (l.dropWhile jsIsWs).length := by rw [List.length_reverse]
    _ ≤ l.length := (List.dropWhile_sublist _).length_le

/-- A filter that drops at least one element yields a strictly shorter list. -/
lemma filter_length_lt_of_mem_not {α : Type} (l : List α) (q : α → Bool) (a : α)
    (ha : a ∈ l) (hqa : q a = false) : (l.filter q).length < l.length := by
  rcases Nat.lt_or_ge ((l.filter q).length) l.length with h | h
  · exact h
  · exfalso
    have hsub : (l.filter q).Sublist l := List.filter_sublist l
    have hlen : (l.filter q).length = l.length :=
      Nat.le_antisymm hsub.length_le h
    have heq : l.filter q = l := hsub.eq_of_length hlen
    have := (List.filter_eq_self.mp heq) a ha
    rw [hqa] at this
    exact Bool.false_ne_true this

/-! ## Claim C3: the 50 MiB size guard -/

/-- Claim C3: whenever the measured repository metadata size exceeds
50 MiB, `parseGitLog` throws the repository-too-large error before any
`git log` invocation exists (the `Except.error` case carries no
`GitLogInvocation`); otherwise the commit limit interpolated into the
log command equals `min(estimatedCommits, 1000)`. -/
theorem parseGitLog_size_guard (sizeBytes estimatedCommits : Nat) :
    (MAX_REPO_SIZE < sizeBytes →
      parseGitLogPreflight sizeBytes estimatedCommits = .error "Repository too large".data) ∧
    (sizeBytes ≤ MAX_REPO_SIZE →
      parseGitLogPreflight sizeBytes estimatedCommits = .ok ⟨min estimatedCommits 1000⟩) := by
  constructor
  · intro h
    simp [parseGitLogPreflight, h]
  · intro h
    have h' : ¬ MAX_REPO_SIZE < sizeBytes := Nat.not_lt.mpr h
    simp [parseGitLogPreflight, h', MAX_COMMITS]

/-- Witness: a 60 MiB repository is rejected; a 1 MB-ish one with an
estimate of 2500 commits gets the clamped limit 1000. -/
theorem parseGitLog_size_guard_witness :
    parseGitLogPreflight (60 * 1024 * 1024) 7 = .error "Repository too large".data ∧
    parseGitLogPreflight 1000000 2500 = .ok ⟨1000⟩ := by
  constructor
  · exact (parseGitLog_size_guard (60 * 1024 * 1024) 7).1 (by norm_num [MAX_REPO_SIZE])
  · have h := (parseGitLog_size_guard 1000000 2500).2 (by norm_num [MAX_REPO_SIZE])
    simpa using h

/-! ## Claim C4: the GET handler's max-count constraint -/

/-- Claim C4 (code behaviour at the failing input): a request with
`max-count=5000` produces a command with *no* `--max-count` flag at all
(`none`), i.e. an unbounded `git log`, not one clamped to 1000 — while
an in-range request keeps its flag.  This contradicts both the spec's
“clamped to ≤1000” and the source's own `// Limit to prevent abuse`
comment. -/
theorem gitLog_maxCount_flag_dropped_above_1000 :
    buildMaxCountFlag (getMaxCount (some "5000".data)) = none ∧
    buildMaxCountFlag (getMaxCount (some "100".data)) = some 100 ∧
    buildMaxCountFlag (getMaxCount none) = some 100 := by
  decide

/-! ## Claim C8: the POST raw-command whitelist -/

/-- Claim C8: the raw-command gateway accepts a command iff it starts
with a whitelisted read-only subcommand, returns the whitelist on
rejection, rejects `git push origin main` and accepts
`git log --oneline`. -/
theorem postCommandGate_whitelist :
    (∀ command : List Char,
      (postCommandGate command = .executed command ↔
        ∃ allowed ∈ allowedCommands, isPrefixC allowed command = true) ∧
      (postCommandGate command = .rejected allowedCommands ↔
        ¬ ∃ allowed ∈ allowedCommands, isPrefixC allowed command = true)) ∧
    postCommandGate "git push origin main".data = .rejected allowedCommands ∧
    postCommandGate "git log --oneline".data = .executed "git log --oneline".data := by
  refine ⟨fun command => ?_, by decide, by decide⟩
  have hany : (allowedCommands.any (fun allowed => isPrefixC allowed command) = true) ↔
      ∃ allowed ∈ allowedCommands, isPrefixC allowed command = true := by
    simp [List.any_eq_true]
  constructor
  · rw [← hany]
    unfold postCommandGate
    cases hb : allowedCommands.any (fun allowed => isPrefixC allowed command) with
    | true => simp [hb]
    | false => simp [hb]
  · rw [← hany]
    unfold postCommandGate
    cases hb : allowedCommands.any (fun allowed => isPrefixC allowed command) with
    | true => simp [hb]
    | false => simp [hb]

/-- Witness: a prefix-matching diff command is executed, derived through
the characterization. -/
theorem postCommandGate_whitelist_witness :
    postCommandGate "git diff HEAD".data = .executed "git diff HEAD".data :=
  ((postCommandGate_whitelist.1 "git diff HEAD".data).1).mpr
    ⟨"git diff".data, by decide, by decide⟩

/-! ## Claim C10: missing `.git` metadata -/

/-- Claim C10: when the repository metadata directory cannot be read at
all (no `.git` entry), `checkRepositorySize` returns `(0, 0)` instead of
erroring; the size guard then passes with a commit limit of
`min 0 1000 = 0`, and parsing the empty output of the resulting
`git log --max-count=0` run (the empty string splits into one empty
line) completes successfully with zero commits and zero files. -/
theorem checkRepositorySize_missing_git_dir (entries : List (List Char × FsNode))
    (hmiss : lookupEntry entries ".git".data = none) :
    checkRepositorySize (.dir entries) = (0, 0) ∧
    parseGitLogPreflight 0 0 = .ok ⟨0⟩ ∧
    parseLoop 2 (splitOnC '\n' "".data) parseInit =
      some { commits := [], files := [], warnings := [] } := by
  refine ⟨?_, by rfl, by rfl⟩
  simp [checkRepositorySize, hmiss]

/-- Witness: a concrete repository directory with no `.git` entry. -/
theorem checkRepositorySize_missing_git_dir_witness :
    checkRepositorySize (.dir [("README".data, .file 10)]) = (0, 0) ∧
    parseGitLogPreflight 0 0 = .ok ⟨0⟩ ∧
    parseLoop 2 (splitOnC '\n' "".data) parseInit =
      some { commits := [], files := [], warnings := [] } :=
  checkRepositorySize_missing_git_dir [("README".data, .file 10)] rfl

/-! ## Claim C6: the complexity scorer -/

/-- Claim C6: for every content string and optional language,
`calculateComplexity` returns exactly
`min 100 (1 + Σ keyword matches + 2·max(0, open−close braces) +
async/await matches for the ECMAScript family)`, hence an integer in
`[1, 100]`, with empty content scoring exactly 1. -/
theorem calculateComplexity_formula_and_bounds
    (content : List Char) (language : Option (List Char)) :
    calculateComplexity content language =
      min (1 + ((controlKeywords.map (fun kw => countWordMatches kw content)).sum
        + 2 * (countChar '\x7b' content - countChar '\x7d' content)
        + (if language = some "typescript".data ∨ language = some "javascript".data then
            countWordMatches "async".data content + countWordMatches "await".data content
          else 0))) 100 ∧
    1 ≤ calculateComplexity content language ∧
    calculateComplexity content language ≤ 100 ∧
    calculateComplexity [] language = 1 := by
  have hform : ∀ cnt : List Char,
      calculateComplexity cnt language =
        min (1 + ((controlKeywords.map (fun kw => countWordMatches kw cnt)).sum
          + 2 * (countChar '\x7b' cnt - countChar '\x7d' cnt)
          + (if language = some "typescript".data ∨ language = some "javascript".data then
              countWordMatches "async".data cnt + countWordMatches "await".data cnt
            else 0))) 100 := by
    intro cnt
    unfold calculateComplexity
    simp only [controlKeywords, List.foldl, List.map, List.sum_cons, List.sum_nil]
    split_ifs with h
    · omega
    · omega
  refine ⟨hform content, ?_, ?_, ?_⟩
  · rw [hform content]; omega
  · rw [hform content]; omega
  · rw [hform []]
    have h1 : ∀ kw : List Char, countWordMatches kw [] = 0 := fun _ => rfl
    simp only [controlKeywords, List.map, h1, List.sum_cons, List.sum_nil, countChar,
      List.filter_nil, List.length_nil]
    split_ifs <;> rfl

/-! ## Claim C5: the parameter sanitizer -/

/-- Claim C5 counterexample: `" hello "` contains none of the forbidden
shell metacharacters, yet `sanitizeGitParameter` throws instead of
returning it unchanged — the sanitizer trims before comparing. -/
theorem sanitizeGitParameter_whitespace_counterexample :
    sanitizeGitParameter " hello ".data = .error "Invalid characters in parameter".data ∧
    " hello ".data.all (fun c => !isForbiddenParamChar c) = true := by
  decide

/-- Claim C5 (amended): a parameter containing any forbidden
metacharacter always errors; a parameter free of them is returned
unchanged iff it also carries no leading/trailing whitespace (otherwise
the trim changes it and the call fails closed). -/
theorem sanitizeGitParameter_characterization (param : List Char) :
    ((∃ c ∈ param, isForbiddenParamChar c = true) →
      sanitizeGitParameter param = .error "Invalid characters in parameter".data) ∧
    ((∀ c ∈ param, isForbiddenParamChar c = false) →
      (sanitizeGitParameter param = .ok param ↔ jsTrim param = param)) := by
  constructor
  · rintro ⟨c, hc, hforb⟩
    have hlt : ((param.filter (fun c => !isForbiddenParamChar c)).length) < param.length :=
      filter_length_lt_of_mem_not param _ c hc (by simp [hforb])
    have hne : jsTrim (param.filter (fun c => !isForbiddenParamChar c)) ≠ param := by
      intro heq
      have := jsTrim_length_le (param.filter (fun c => !isForbiddenParamChar c))
      rw [heq] at this
      omega
    simp only [sanitizeGitParameter]
    rw [if_neg hne]
  · intro hclean
    have hfilter : param.filter (fun c => !isForbiddenParamChar c) = param :=
      List.filter_eq_self.mpr (fun a ha => by simp [hclean a ha])
    constructor
    · intro hok
      simp only [sanitizeGitParameter, hfilter] at hok
      by_cases htrim : jsTrim param = param
      · exact htrim
      · rw [if_neg htrim] at hok
        exact absurd hok (by simp)
    · intro htrim
      simp only [sanitizeGitParameter, hfilter, htrim, if_pos]

/-- Witness: a clean parameter without surrounding whitespace passes
through unchanged. -/
theorem sanitizeGitParameter_characterization_witness :
    sanitizeGitParameter "hello".data = .ok "hello".data :=
  ((sanitizeGitParameter_characterization "hello".data).2 (by decide)).mpr (by decide)

/-! ## Claim C1: the repository-path sanitizer -/

/-- Claim C1 counterexample: with the standard allow-list instantiated
at home `/home/user` and working directory `/cwd`, the input
`/tmpevil` resolves to `/tmpevil`, which is *not* a descendant of any
allowed base directory — yet `sanitizeRepositoryPath` accepts it,
because the source checks `String.startsWith` and `/tmpevil` shares the
string prefix `/tmp`.  The claim requires an invalid-path error here. -/
theorem sanitizeRepositoryPath_prefix_counterexample :
    sanitizeRepositoryPath (allowedBaseDirs "/home/user".data "/cwd".data)
      "/cwd".data "/tmpevil".data = .ok "/tmpevil".data ∧
    ((allowedBaseDirs "/home/user".data "/cwd".data).all
      (fun b => !(isPathDescendant (pathResolve "/cwd".data b)
                    (pathResolve "/cwd".data "/tmpevil".data)))) = true := by
  decide

/-- Claim C1 (amended): `sanitizeRepositoryPath` returns the resolved,
normalized path exactly when that path has some allowed base as a
*string* prefix (not necessarily as a path-component descendant) and
contains neither `..` nor `~` as a substring; every other input throws.
Consequently any accepted path is the resolved input, is free of `..`
segments, and carries an allowed base as prefix. -/
theorem sanitizeRepositoryPath_characterization (bases : List (List Char))
    (cwd p : List Char) :
    (sanitizeRepositoryPath bases cwd p = .ok (pathResolve cwd p) ↔
      (bases.any (fun b => isPrefixC (pathResolve cwd b) (pathResolve cwd p)) = true ∧
       containsSub "..".data (pathResolve cwd p) = false ∧
       containsSub "~".data (pathResolve cwd p) = false)) ∧
    (∀ q, sanitizeRepositoryPath bases cwd p = .ok q →
      q = pathResolve cwd p ∧
      containsSub "..".data q = false ∧
      bases.any (fun b => isPrefixC (pathResolve cwd b) q) = true) := by
  unfold sanitizeRepositoryPath
  by_cases hallow : bases.any (fun b => isPrefixC (pathResolve cwd b) (pathResolve cwd p)) = true
  · rw [if_pos hallow]
    by_cases hb : (containsSub "..".data (pathResolve cwd p) ||
        containsSub "~".data (pathResolve cwd p)) = true
    · rw [if_pos hb]
      refine ⟨⟨fun hcontra => absurd hcontra (by simp), ?_⟩,
        fun q hq => absurd hq (by simp)⟩
      rintro ⟨-, h1, h2⟩
      rw [h1, h2] at hb
      simp at hb
    · rw [if_neg hb]
      have h1 : containsSub "..".data (pathResolve cwd p) = false := by
        rcases Bool.eq_false_or_eq_true (containsSub "..".data (pathResolve cwd p)) with h | h
        · exact absurd (by simp [h]) hb
        · exact h
      have h2 : containsSub "~".data (pathResolve cwd p) = false := by
        rcases Bool.eq_false_or_eq_true (containsSub "~".data (pathResolve cwd p)) with h | h
        · exact absurd (by simp [h]) hb
        · exact h
      refine ⟨⟨fun _ => ⟨hallow, h1, h2⟩, fun _ => rfl⟩, ?_⟩
      intro q hq
      have hqe : pathResolve cwd p = q := by simpa using hq
      subst hqe
      exact ⟨rfl, h1, hallow⟩
  · rw [if_neg hallow]
    refine ⟨⟨fun hcontra => absurd hcontra (by simp), ?_⟩,
      fun q hq => absurd hq (by simp)⟩
    rintro ⟨ha, -, -⟩
    exact absurd ha hallow

/-- Witness: `/tmp/project` under the standard allow-list is accepted
and returned as its own resolution. -/
theorem sanitizeRepositoryPath_characterization_witness :
    sanitizeRepositoryPath (allowedBaseDirs "/home/user".data "/cwd".data)
      "/cwd".data "/tmp/project".data = .ok "/tmp/project".data := by
  have h := (sanitizeRepositoryPath_characterization
    (allowedBaseDirs "/home/user".data "/cwd".data) "/cwd".data "/tmp/project".data).1
  exact h.mpr (by decide)

/-! ## Claim C2: sanitization failure inside the file-line branch -/

/-- A numstat line whose path fails `sanitizeFilePath`: `bad[].ts`
contains `[` immediately followed by `]`, which the regex strips,
changing the string. -/
def badFileLine : List Char := "1\t2\tbad[].ts".data

/-- The header line preceding it in the failing stream. -/
def c2HeaderLine : List Char := "h1|m1|alice|a@x|100".data

/-- The commit opened by that header. -/
def c2Commit1 : CommitData :=
  { sha := "h1".data, message := "m1".data, author := "alice".data,
    authorEmail := "a@x".data, date := some 100000,
    filesChanged := [], linesAdded := 0, linesDeleted := 0, tags := [] }

/-- The failing stream of claim C2. -/
def c2FailLines : List (List Char) := [c2HeaderLine, badFileLine]

/-- On the bad file line with an open commit, the loop body warns and
`continue`s without advancing the index. -/
lemma parseStep_badFileLine (st : ParserState) (cur : CommitData)
    (h : st.current = some cur) :
    parseStep badFileLine st =
      ({ st with warnings := st.warnings ++ [skipFileWarn] }, false) := by
  obtain ⟨cs, fm, cu, ws⟩ := st
  cases cu with
  | none => simp at h
  | some c => rfl

/-- With an open commit and the bad file line at the head, the loop
never terminates: the state repeats (up to a growing warning trace) with
the index stuck, so every fuel runs out. -/
lemma parseLoop_stuck_on_badFileLine (rest : List (List Char)) :
    ∀ fuel (st : ParserState) (cur : CommitData), st.current = some cur →
      parseLoop fuel (badFileLine :: rest) st = none := by
  intro fuel
  induction fuel with
  | zero => intro st cur h; rfl
  | succ f ih =>
    intro st cur h
    have hstep := parseStep_badFileLine st cur h
    simp only [parseLoop, hstep]
    exact ih _ cur (by simp [← h])

/-- Claim C2 (code behaviour at the failing input): on a stream with one
valid header and one file line whose path fails sanitization
(`bad[].ts`), the parse loop returns `none` for *every* fuel bound — the
source loop runs forever, because the `catch` block's `continue` skips
the `i++`.  The claim's required behaviour (skip the line, terminate,
return the rest) never happens. -/
theorem parseGitLog_sanitize_failure_nonterminating :
    ∀ fuel : Nat, parseLoop fuel c2FailLines parseInit = none := by
  intro fuel
  cases fuel with
  | zero => rfl
  | succ f =>
    show parseLoop f [badFileLine]
      { commits := [], fileMap := [], current := some c2Commit1, warnings := [] } = none
    exact parseLoop_stuck_on_badFileLine [] f _ c2Commit1 rfl

/-! ## Claim C9: file aggregates on the spec's three-commit example -/

/-- The claim's own example stream: one file touched by three commits
with per-line (added, deleted) of (2,0), (0,1), (5,3). -/
def c9Lines : List (List Char) :=
  ["c1|m1|alice|a@x|100".data, "2\t0\tsrc/a.ts".data,
   "c2|m2|alice|a@x|200".data, "0\t1\tsrc/a.ts".data,
   "c3|m3|alice|a@x|300".data, "5\t3\tsrc/a.ts".data]

/-- Claim C9 (code behaviour at the failing input): parsing the example
yields `totalChanges = 3` and ordered `firstSeen ≤ lastModified` as
claimed, but the commit aggregates come out as `linesAdded = [2,0,5]`,
`linesDeleted = [0,0,0]` — not the per-line sums `[0,1,3]` — because
`const [stats, , filePath] = line.split('\t')` leaves only the first
tab field in `stats`, so `deleted` is always `parseInt(undefined) || 0`. -/
theorem parseGitLog_linesDeleted_always_zero :
    (parseLoop 10 c9Lines parseInit).map
        (fun r => r.commits.map (fun c => (c.linesAdded, c.linesDeleted))) =
      some [(2, 0), (0, 0), (5, 0)] ∧
    (parseLoop 10 c9Lines parseInit).map
        (fun r => r.files.map (fun kv => kv.2.totalChanges)) = some [3] ∧
    (parseLoop 10 c9Lines parseInit).map
        (fun r => r.files.map (fun kv => (kv.2.firstSeen, kv.2.lastModified))) =
      some [(some 100000, some 300000)] := by
  decide

/-! ## Claim C7: the malformed-header line -/

/-- Running out of fuel never yields a result. -/
lemma parseLoop_zero (lines : List (List Char)) (st : ParserState) :
    parseLoop 0 lines st = none := rfl

/-- Fuel monotonicity: a run that finishes still finishes with one more
unit of fuel, with the same result. -/
lemma parseLoop_mono_succ : ∀ fuel lines (st : ParserState) r,
    parseLoop fuel lines st = some r → parseLoop (fuel + 1) lines st = some r := by
  intro fuel
  induction fuel with
  | zero =>
    intro lines st r h
    rw [parseLoop_zero] at h
    exact absurd h (by simp)
  | succ f ih =>
    intro lines st r h
    cases lines with
    | nil => simpa only [parseLoop] using h
    | cons l ls =>
      rcases hps : parseStep l st with ⟨st', adv⟩
      cases adv with
      | true =>
        have h' : parseLoop f ls st' = some r := by
          simpa only [parseLoop, hps] using h
        simpa only [parseLoop, hps] using ih ls st' r h'
      | false =>
        have h' : parseLoop f (l :: ls) st' = some r := by
          simpa only [parseLoop, hps] using h
        simpa only [parseLoop, hps] using ih (l :: ls) st' r h'

/-- A line that is neither a five-field header nor a numstat match is
inert: the loop body leaves the state unchanged and advances. -/
lemma parseStep_inert_of (m : List Char)
    (h5 : ¬((jsTrim m).contains '|' = true ∧ (splitOnC '|' (jsTrim m)).length = 5))
    (hns : numstatMatch (jsTrim m) = false) (st : ParserState) :
    parseStep m st = (st, true) := by
  obtain ⟨cs, fm, cu, ws⟩ := st
  have hfile : ¬(jsTrim m ≠ [] ∧ numstatMatch (jsTrim m) = true) := by
    rintro ⟨-, hmatch⟩
    rw [hns] at hmatch
    exact Bool.false_ne_true hmatch
  cases cu with
  | none =>
    simp only [parseStep]
    rw [if_neg h5]
  | some cur =>
    simp only [parseStep]
    rw [if_neg h5]
    simp only [if_neg hfile]

/-- Removing a universally inert line from anywhere in the stream does
not change a successful parse result. -/
lemma parseLoop_skip_of_inert (m : List Char) (post : List (List Char))
    (hm : ∀ st : ParserState, parseStep m st = (st, true)) :
    ∀ fuel (pre : List (List Char)) (st : ParserState) (r : ParseResult),
      parseLoop fuel (pre ++ m :: post) st = some r →
      parseLoop fuel (pre ++ post) st = some r := by
  intro fuel
  induction fuel with
  | zero =>
    intro pre st r h
    rw [parseLoop_zero] at h
    exact absurd h (by simp)
  | succ f ih =>
    intro pre st r h
    cases pre with
    | nil =>
      have h' : parseLoop f post st = some r := by
        simpa only [List.nil_append, parseLoop, hm st] using h
      simpa only [List.nil_append] using parseLoop_mono_succ f post st r h'
    | cons a pre' =>
      rcases hps : parseStep a st with ⟨st', adv⟩
      cases adv with
      | true =>
        have h' : parseLoop f (pre' ++ m :: post) st' = some r := by
          simpa only [List.cons_append, parseLoop, hps] using h
        have h'' := ih pre' st' r h'
        simpa only [List.cons_append, parseLoop, hps] using h''
      | false =>
        have h' : parseLoop f ((a :: pre') ++ m :: post) st' = some r := by
          simpa only [List.cons_append, parseLoop, hps] using h
        have h'' := ih (a :: pre') st' r h'
        simpa only [List.cons_append, parseLoop, hps] using h''

/-- Destructuring helper for five-field splits. -/
lemma length_eq_five {α : Type} : ∀ l : List α, l.length = 5 →
    ∃ a b c d e, l = [a, b, c, d, e]
  | [a, b, c, d, e], _ => ⟨a, b, c, d, e, rfl⟩
  | [], h => by simp only [List.length_nil] at h; omega
  | [a], h => by simp only [List.length_cons, List.length_nil] at h; omega
  | [a, b], h => by simp only [List.length_cons, List.length_nil] at h; omega
  | [a, b, c], h => by simp only [List.length_cons, List.length_nil] at h; omega
  | [a, b, c, d], h => by simp only [List.length_cons, List.length_nil] at h; omega
  | a :: b :: c :: d :: e :: f :: t, h => by
      simp only [List.length_cons, List.length_nil] at h; omega

/-- Per-step accounting: an advancing step adds `headerBit` to
`commits.length + openBit`; a non-advancing step (one of the two
`continue` paths) preserves the commit list and the open accumulator. -/
lemma parseStep_cases (l : List Char) (st : ParserState) :
    ((parseStep l st).2 = true ∧
      (parseStep l st).1.commits.length + openBit (parseStep l st).1 =
        st.commits.length + openBit st + headerBit l) ∨
    ((parseStep l st).2 = false ∧
      (parseStep l st).1.commits.length = st.commits.length ∧
      (parseStep l st).1.current = st.current) := by
  obtain ⟨cs, fm, cu, ws⟩ := st
  by_cases hhead : (jsTrim l).contains '|' = true ∧ (splitOnC '|' (jsTrim l)).length = 5
  · have hb : headerBit l = 1 := by
      unfold headerBit
      rw [if_pos (show IsHeaderLine l from hhead)]
    obtain ⟨a, b, c, d, e, hparts⟩ := length_eq_five _ hhead.2
    have hne : ¬(splitOnC '|' (jsTrim l)).length ≠ 5 := fun hne => hne hhead.2
    left
    constructor
    · simp only [parseStep]
      rw [if_pos hhead, if_neg hne]
      simp only [hparts]
    · simp only [parseStep]
      rw [if_pos hhead, if_neg hne]
      simp only [hparts]
      rw [hb]
      cases cu <;> simp [openBit, Option.toList]
  · have hb : headerBit l = 0 := by
      unfold headerBit
      rw [if_neg (show ¬IsHeaderLine l from hhead)]
    cases cu with
    | none =>
      left
      constructor
      · simp only [parseStep]
        rw [if_neg hhead]
      · simp only [parseStep]
        rw [if_neg hhead]
        simp [openBit, hb]
    | some cur =>
      by_cases hfile : jsTrim l ≠ [] ∧ numstatMatch (jsTrim l) = true
      · have hstep : parseStep l ⟨cs, fm, some cur, ws⟩ =
            fileStep (jsTrim l) cur ⟨cs, fm, some cur, ws⟩ := by
          simp only [parseStep]
          rw [if_neg hhead]
          simp only [if_pos hfile]
        rw [hstep]
        rcases hsp : splitOnC '\t' (jsTrim l) with _ | ⟨s0, _ | ⟨s1, _ | ⟨s2, srest⟩⟩⟩
        · left
          constructor
          · simp only [fileStep, hsp]
          · simp only [fileStep, hsp]
            simp [openBit, hb]
        · left
          constructor
          · simp only [fileStep, hsp]
          · simp only [fileStep, hsp]
            simp [openBit, hb]
        · left
          constructor
          · simp only [fileStep, hsp]
          · simp only [fileStep, hsp]
            simp [openBit, hb]
        · rcases hsan : sanitizeFilePath s2 with err | okPath
          · right
            refine ⟨?_, ?_, ?_⟩
            · simp only [fileStep, hsp, hsan]
            · simp only [fileStep, hsp, hsan]
            · simp only [fileStep, hsp, hsan]
          · left
            constructor
            · simp only [fileStep, hsp, hsan]
            · simp only [fileStep, hsp, hsan]
              simp [openBit, hb]
      · left
        constructor
        · simp only [parseStep]
          rw [if_neg hhead]
          simp only [if_neg hfile]
        · simp only [parseStep]
          rw [if_neg hhead]
          simp only [if_neg hfile]
          simp [openBit, hb]

/-- Commit-count invariant of the loop: a successful parse yields
exactly one commit per well-formed header line, on top of what the
starting state already holds. -/
lemma parseLoop_count : ∀ fuel lines (st : ParserState) r,
    parseLoop fuel lines st = some r →
    r.commits.length = st.commits.length + openBit st + countHeaders lines := by
  intro fuel
  induction fuel with
  | zero =>
    intro lines st r h
    rw [parseLoop_zero] at h
    exact absurd h (by simp)
  | succ f ih =>
    intro lines st r h
    cases lines with
    | nil =>
      have hr : parseFinish st = r := by
        simpa only [parseLoop, Option.some.injEq] using h
      subst hr
      obtain ⟨cs, fm, cu, ws⟩ := st
      cases cu <;> simp [parseFinish, openBit, countHeaders, Option.toList]
    | cons l ls =>
      rcases hps : parseStep l st with ⟨st', adv⟩
      rcases parseStep_cases l st with ⟨ht, hcnt⟩ | ⟨hf, hc, hcur⟩
      · rw [hps] at ht hcnt
        simp at ht
        subst ht
        simp only at hcnt
        have h' : parseLoop f ls st' = some r := by
          simpa only [parseLoop, hps] using h
        have hrec := ih ls st' r h'
        have hch : countHeaders (l :: ls) = headerBit l + countHeaders ls := by
          simp [countHeaders]
        omega
      · rw [hps] at hf hc hcur
        simp at hf
        subst hf
        simp only at hc hcur
        have h' : parseLoop f (l :: ls) st' = some r := by
          simpa only [parseLoop, hps] using h
        have hrec := ih (l :: ls) st' r h'
        have hop : openBit st' = openBit st := by
          unfold openBit
          rw [hcur]
        omega

/-- Claim C7 counterexample: on a stream with one well-formed header and
one four-field header, the parse yields one commit — but the warning
trace is empty: the malformed header is *not* logged, because the
field-count warning sits in dead code. -/
theorem malformed_header_not_logged_counterexample :
    (parseLoop 3 ["h|m|a|e|5".data, "a|b|c|d".data] parseInit).map ParseResult.warnings =
      some [] ∧
    (parseLoop 3 ["h|m|a|e|5".data, "a|b|c|d".data] parseInit).map
      (fun r => r.commits.length) = some 1 := by
  decide

/-- Claim C7 (amended): inserting a four-field header line (which does
not match the numstat pattern) anywhere in a stream leaves the parse
result — commits, files and warnings — exactly as if the line were
absent, and the parse yields one commit per remaining well-formed
header; in particular nothing is logged for the malformed header and
the parser does not crash. -/
theorem malformed_header_skipped_silently (pre post : List (List Char)) (m : List Char)
    (h4 : (splitOnC '|' (jsTrim m)).length = 4)
    (hns : numstatMatch (jsTrim m) = false)
    (r : ParseResult) (hp : Parses (pre ++ m :: post) r) :
    Parses (pre ++ post) r ∧
    r.commits.length = countHeaders pre + countHeaders post := by
  have h5 : ¬((jsTrim m).contains '|' = true ∧ (splitOnC '|' (jsTrim m)).length = 5) := by
    rintro ⟨-, hlen⟩
    omega
  have hinert := parseStep_inert_of m h5 hns
  obtain ⟨fuel, hfuel⟩ := hp
  refine ⟨⟨fuel, parseLoop_skip_of_inert m post hinert fuel pre parseInit r hfuel⟩, ?_⟩
  have hcount := parseLoop_count fuel (pre ++ m :: post) parseInit r hfuel
  have hm0 : headerBit m = 0 := by
    unfold headerBit
    rw [if_neg (show ¬IsHeaderLine m from h5)]
  have hsplit : countHeaders (pre ++ m :: post) = countHeaders pre + countHeaders post := by
    simp [countHeaders, List.map_append, List.sum_append, hm0]
  rw [hsplit] at hcount
  simpa [parseInit, openBit] using hcount

/-- The one commit of the witness stream's single well-formed header. -/
def c7Commit : CommitData :=
  { sha := "h".data, message := "m".data, author := "a".data,
    authorEmail := "e".data, date := some 5000, filesChanged := [],
    linesAdded := 0, linesDeleted := 0, tags := [] }

/-- The parse result of the single well-formed header `h|m|a|e|5`. -/
def c7Result : ParseResult :=
  { commits := [c7Commit], files := [], warnings := [] }

/-- Witness: the stream `[valid header, four-field header]` parses to
the same single-commit result as the stream without the malformed line,
with one commit for the one remaining header. -/
theorem malformed_header_skipped_silently_witness :
    Parses ["h|m|a|e|5".data] c7Result ∧
    c7Result.commits.length = countHeaders ["h|m|a|e|5".data] + countHeaders [] :=
  malformed_header_skipped_silently ["h|m|a|e|5".data] [] "a|b|c|d".data
    (by decide) (by decide) c7Result ⟨3, by decide⟩
